import Mathlib

/-!
# Verification of the BiliBili-Manga-Downloader episode pipeline

Shallow embedding of `src/Episode.py` (the GUI pipeline) and, where cited,
`main.py`.  Strings are modelled as `List Char`; Python `re` operations on the
concrete anchored patterns used by the source are modelled by the equivalent
maximal-munch list operations; `\d` and the class `[0-9\-]` are modelled over
ASCII digits, and `\s` over ASCII whitespace.  Filesystem and network effects
are modelled by explicit state passing with failure oracles.
-/

/-! ## Title normalization (`Episode.__init__`, lines 54–80) -/

/-- Characters replaced by a space: `re.sub(r'[\\/:*?"<>|]', " ", s)`. -/
def forbiddenChar (c : Char) : Bool :=
  c = '\\' || c = '/' || c = ':' || c = '*' || c = '?' || c = '"' ||
  c = '<' || c = '>' || c = '|'

/-- Python `\s` (ASCII range). -/
def pyIsSpace (c : Char) : Bool :=
  c = ' ' || c = '\t' || c = '\n' || c = '\r' || c = '\x0b' || c = '\x0c'

/-- Rule 1: `re.sub(r'[\\/:*?"<>|]', " ", s)`. -/
def replaceForbidden (s : List Char) : List Char :=
  s.map (fun c => if forbiddenChar c then ' ' else c)

/-- Rule 2: `re.sub(r"\s+$", "", s)` — strip the maximal whitespace suffix. -/
def rstripSpaces (s : List Char) : List Char :=
  (s.reverse.dropWhile pyIsSpace).reverse

/-- Rule 3: `re.sub(r"\.", "·", s)`. -/
def dotToMiddleDot (s : List Char) : List Char :=
  s.map (fun c => if c = '.' then '·' else c)

/-- Rules 1–3 as applied to each of `short_title` and `title` in turn. -/
def sanitize (s : List Char) : List Char :=
  dotToMiddleDot (rstripSpaces (replaceForbidden s))

/-- Rule 4 (lines 65–68): if `short_title == title or title == ""` the title is
the short title, else `f"{short} {long}"`. -/
def joinTitles (short long : List Char) : List Char :=
  if short = long ∨ long = [] then short else short ++ ' ' :: long

/-- Rule 5 (lines 69–71): `re.search(r"^(\d+)\s+第(\d+)话", t)`; if it matches
and the two captured digit runs are equal *as strings* (`temp[1] == temp[2]`),
drop the leading `\d+\s+` (the effect of
`re.sub(r"^\d+\s+(第\d+话)", r"\1", t)`). -/
def collapseNumDup (t : List Char) : List Char :=
  let d1 := t.takeWhile Char.isDigit
  let r1 := t.dropWhile Char.isDigit
  let ws := r1.takeWhile pyIsSpace
  let r2 := r1.dropWhile pyIsSpace
  if d1 = [] ∨ ws = [] then t
  else
    match r2 with
    | '第' :: r3 =>
      let d2 := r3.takeWhile Char.isDigit
      let r4 := r3.dropWhile Char.isDigit
      if d2 ≠ [] ∧ r4.head? = some '话' ∧ d1 = d2 then r2 else t
    | _ => t

/-- The literal `特别篇` as a character list. -/
def tbp : List Char := ['特', '别', '篇']

/-- Strip a literal prefix, returning the remainder on a match. -/
def dropLit : List Char → List Char → Option (List Char)
  | [], rest => some rest
  | _ :: _, [] => none
  | p :: ps, c :: cs => if c = p then dropLit ps cs else none

/-- Whether `re.search(r"^特别篇\s+特别篇", t)` matches. -/
def specialDupMatches (t : List Char) : Bool :=
  match dropLit tbp t with
  | none => false
  | some r1 =>
    match r1.takeWhile pyIsSpace, dropLit tbp (r1.dropWhile pyIsSpace) with
    | [], _ => false
    | _ :: _, some _ => true
    | _ :: _, none => false

/-- Rule 6 (lines 72–73): `re.sub(r"^特别篇\s+特别篇", r"特别篇", t)` when the
pattern matches. -/
def collapseSpecialDup (t : List Char) : List Char :=
  match dropLit tbp t with
  | none => t
  | some r1 =>
    match r1.takeWhile pyIsSpace, dropLit tbp (r1.dropWhile pyIsSpace) with
    | [], _ => t
    | _ :: _, some rest => tbp ++ rest
    | _ :: _, none => t

/-- The class `[0-9\-]`. -/
def digitOrDash (c : Char) : Bool := c.isDigit || c = '-'

/-- Rule 7 (lines 77–80): if `^[0-9\-]+话` matches, `第` is prefixed
(`re.sub(r"^([0-9\-]+)", r"第\1", t)`); else if `^[0-9\-]+` matches, the run is
wrapped (`re.sub(r"^([0-9\-]+)", r"第\1话", t)`). -/
def prefixChapter (t : List Char) : List Char :=
  let r := t.takeWhile digitOrDash
  let rest := t.dropWhile digitOrDash
  if r = [] then t
  else
    match rest with
    | '话' :: _ => '第' :: t
    | _ => '第' :: (r ++ '话' :: rest)

/-- The episode title as computed by `Episode.__init__` from the raw
`short_title` and `title` fields. -/
def mkTitle (short long : List Char) : List Char :=
  prefixChapter (collapseSpecialDup (collapseNumDup
    (joinTitles (sanitize short) (sanitize long))))

/-- `normalize(s)`: the title pipeline on a single string (empty long title,
under which rule 4 yields the string itself). -/
def normalizeTitle (s : List Char) : List Char := mkTitle s []

/-- Numeric value of a digit run, for the spec-side reading of rule 5. -/
def digitsToNat (ds : List Char) : Nat :=
  ds.foldl (fun a c => 10 * a + (c.toNat - 48)) 0

/-- Spec §4.1 rule 5, following the spec's words: collapse when the two digit
groups are *numerically* equal (the code compares them as strings). -/
def collapseNumDupSpec (t : List Char) : List Char :=
  let d1 := t.takeWhile Char.isDigit
  let r1 := t.dropWhile Char.isDigit
  let ws := r1.takeWhile pyIsSpace
  let r2 := r1.dropWhile pyIsSpace
  if d1 = [] ∨ ws = [] then t
  else
    match r2 with
    | '第' :: r3 =>
      let d2 := r3.takeWhile Char.isDigit
      let r4 := r3.dropWhile Char.isDigit
      if d2 ≠ [] ∧ r4.head? = some '话' ∧ digitsToNat d1 = digitsToNat d2 then r2 else t
    | _ => t

/-- The title as §4.1's seven rules describe it (rule 5 numeric). -/
def specTitleNumeric (short long : List Char) : List Char :=
  prefixChapter (collapseSpecialDup (collapseNumDupSpec
    (joinTitles (sanitize short) (sanitize long))))

/-! ## Canonical output paths and the already-downloaded check
(`Episode.__init__` lines 88–99, `Episode.isDownloaded` lines 518–528) -/

/-- The three canonical output paths computed unconditionally by the
constructor: `{save_path}/{title}.pdf`, `{save_path}/{title}`,
`{save_path}/{title}.7z`. -/
structure EpiPaths where
  pdf : String
  folder : String
  sevenz : String
deriving DecidableEq

/-- `os.path.join` and the f-strings of lines 90–92. -/
def mkEpiPaths (savePath title : String) : EpiPaths :=
  ⟨savePath ++ "/" ++ title ++ ".pdf",
   savePath ++ "/" ++ title,
   savePath ++ "/" ++ title ++ ".7z"⟩

/-- The `if/elif` chain of lines 94–99: `self.epi_path` is assigned only for
the three recognized `save_method` strings. -/
def epiPathFor (saveMethod : String) (p : EpiPaths) : Option String :=
  if saveMethod = "PDF" then some p.pdf
  else if saveMethod = "文件夹-图片" then some p.folder
  else if saveMethod = "7z压缩包" then some p.sevenz
  else none

/-- The three save formats, for stating spec-side properties. -/
inductive SaveFmt | pdf | folder | sevenz
deriving DecidableEq

/-- The canonical path implied by a save format. -/
def canonicalFor : SaveFmt → EpiPaths → String
  | .pdf, p => p.pdf
  | .folder, p => p.folder
  | .sevenz, p => p.sevenz

/-- The configured-format string of a format tag. -/
def fmtString : SaveFmt → String
  | .pdf => "PDF"
  | .folder => "文件夹-图片"
  | .sevenz => "7z压缩包"

/-- `Episode.isDownloaded` (lines 524–528): `os.path.exists` on the PDF path
`or` the folder path `or` the 7z path.  `ex` models `os.path.exists`. -/
def isDownloaded (ex : String → Bool) (p : EpiPaths) : Bool :=
  ex p.pdf || ex p.folder || ex p.sevenz

/-! ## Page fetch with integrity gate (`Episode.downloadImg`, lines 443–505) -/

/-- One HTTP response to `GET {url}?token={token}`: status code, the
`Etag` header, and the body bytes. -/
structure Response where
  status : Nat
  etag : List Char
  body : List Nat
deriving DecidableEq

/-- The per-attempt acceptance test of the inner `_()` (lines 446–464): the
attempt raises unless `res.status_code == 200` and
`res.headers["Etag"] == hashlib.md5(res.content).hexdigest()`.
`md5` abstracts `hashlib.md5(·).hexdigest()`. -/
def acceptResponse (md5 : List Nat → List Char) (r : Response) : Bool :=
  decide (r.status = 200) && decide (r.etag = md5 r.body)

/-- The `@retry(stop_max_delay=MAX_RETRY_LARGE, ...)` loop around the fetch:
successive attempts receive successive responses; the loop returns the first
accepted body, and exhausting the bounded-time budget (the end of the attempt
stream) re-raises, surfacing `None` from `downloadImg`. -/
def fetchRetry (md5 : List Nat → List Char) : List Response → Option (List Nat)
  | [] => none
  | r :: rs => if acceptResponse md5 r then some r.body else fetchRetry md5 rs

/-- The `@retry(stop_max_attempt_number=5)` loop around the temp-file write
(lines 482–494): `writeOk k` tells whether the k-th write attempt succeeds. -/
def persistRetry (writeOk : Nat → Bool) : Nat → Nat → Bool
  | 0, _ => false
  | fuel + 1, k => if writeOk k then true else persistRetry writeOk fuel (k + 1)

/-- `downloadImg`: fetch under the integrity gate, then persist the bytes to
`{save_path}/{ord}_{index}.jpg`; `none` models the `return None` failure
paths, `some (path, bytes)` the verified `DownloadedPage`. -/
def downloadImg (md5 : List Nat → List Char) (rs : List Response)
    (writeOk : Nat → Bool) (tempPath : String) : Option (String × List Nat) :=
  match fetchRetry md5 rs with
  | none => none
  | some b => if persistRetry writeOk 5 0 then some (tempPath, b) else none

/-! ## The per-episode pipeline (`Episode.download`, lines 187–260) -/

/-- Progress events emitted on `rate_progress`: the `-1` failure sentinel
(whose dict has no `"path"` key), and the per-page report of lines 226–232,
which carries `self.epi_path`.  The numeric rate of a successful report is
abstracted to the page index (no claim depends on the percentage). -/
inductive Ev
  | sentinel
  | pageDone (idx : Nat) (epiPath : String)
deriving DecidableEq

/-- Environment of one `download` run: `str(self.ord)`, `self.save_path`,
`self.save_method`, the result of `init_imgsList` (`none` models the failure
path, in which `self.imgs_token` is still `None`; `some n` a token list of
`n` pages), and per-index success of `downloadImg`. -/
structure DlEnv where
  ordStr : String
  savePath : String
  saveMethod : String
  imgsToken : Option Nat
  pageOk : Nat → Bool

/-- `os.path.join(self.save_path, f"{self.ord}_{index}.jpg")` (line 480). -/
def tempPath (env : DlEnv) (i : Nat) : String :=
  env.savePath ++ "/" ++ env.ordStr ++ "_" ++ toString i ++ ".jpg"

/-- Result of a `download` run: the events emitted, an exception escaping
`download` (if any), the `imgs_path` list at the point where assembly starts
(`none` if never reached), the save method dispatched to an assembler variant
(`none` if the `if/elif` chain fell through or assembly was never reached),
and the `imgs_path` list handed to `clearAfterSave` (`none` if cleanup never
ran). -/
structure DlRes where
  events : List Ev
  exn : Option String
  pagesForAssembly : Option (List String)
  assembled : Option String
  cleanedPaths : Option (List String)
deriving DecidableEq

/-- The `for index, img in enumerate(self.imgs_token, start=1)` loop
(lines 211–232) followed by the assembler dispatch (lines 253–258) and
`clearAfterSave` (line 260).  `k` counts the pages still to process, `i` the
next 1-based index, `acc` the `imgs_path` accumulator.  A failed page emits
the sentinel, runs cleanup and returns (lines 215–223); a successful page
appends its path and emits the per-page report, which reads `self.epi_path`
and raises `AttributeError` when the constructor never assigned it. -/
def dlLoop (env : DlEnv) (epiPath : Option String) :
    Nat → Nat → List String → List Ev → DlRes
  | 0, _, acc, evs =>
    { events := evs
      exn := none
      pagesForAssembly := some acc
      assembled := if env.saveMethod = "PDF" ∨ env.saveMethod = "文件夹-图片" ∨
          env.saveMethod = "7z压缩包" then some env.saveMethod else none
      cleanedPaths := some acc }
  | k + 1, i, acc, evs =>
    if env.pageOk i then
      match epiPath with
      | none =>
        { events := evs
          exn := some "AttributeError"
          pagesForAssembly := none
          assembled := none
          cleanedPaths := none }
      | some p =>
        dlLoop env (some p) k (i + 1) (acc ++ [tempPath env i])
          (evs ++ [Ev.pageDone i p])
    else
      { events := evs ++ [Ev.sentinel]
        exn := none
        pagesForAssembly := none
        assembled := none
        cleanedPaths := some acc }

/-- `Episode.download`: when `init_imgsList` fails it emits the `-1` sentinel
(lines 200–206) but, lacking a `return`, falls through to
`enumerate(self.imgs_token, start=1)` with `self.imgs_token = None`, raising
`TypeError`; otherwise the page loop runs. -/
def download (env : DlEnv) (epiPath : Option String) : DlRes :=
  match env.imgsToken with
  | none =>
    { events := [Ev.sentinel]
      exn := some "TypeError"
      pagesForAssembly := none
      assembled := none
      cleanedPaths := none }
  | some n => dlLoop env epiPath n 1 [] []

/-- `str(index).zfill(3)` (line 368). -/
def zfill3 (n : Nat) : String :=
  let s := toString n
  if s.length ≥ 3 then s else String.mk (List.replicate (3 - s.length) '0') ++ s

/-- The `for index, img in enumerate(temp_imgs, start=1)` loop of
`saveToFolder` (lines 354–371): each image is written to
`{str(index).zfill(3)}.jpg` in list order.  `readFile` models reading a temp
file's bytes (`temp_imgs` holds the image opened from each `imgs_path`
entry). -/
def folderEntriesAux (readFile : String → List Nat) :
    Nat → List String → List (String × List Nat)
  | _, [] => []
  | i, p :: rest =>
    (zfill3 i ++ ".jpg", readFile p) :: folderEntriesAux readFile (i + 1) rest

/-- `saveToFolder`'s output: the files written into the canonical folder, in
writing order. -/
def folderEntries (imgsPath : List String) (readFile : String → List Nat) :
    List (String × List Nat) :=
  folderEntriesAux readFile 1 imgsPath

/-- `saveToPDF` page order (lines 308–313): `temp_imgs[0].save(...,
append_images=temp_imgs[1:])` writes the document's pages in `temp_imgs`
list order, i.e. `imgs_path` order. -/
def pdfPages (imgsPath : List String) (readFile : String → List Nat) :
    List (List Nat) :=
  imgsPath.map readFile

/-! ## PDF assembly and the canonical path (`Episode.saveToPDF`, lines 297–340) -/

/-- State of the canonical PDF path on disk: no file; a file that is not the
finished artifact (created-then-failed, truncated, or missing the metadata
block); or the finished document. -/
inductive FileState
  | absent
  | partialFile
  | complete
deriving DecidableEq

/-- Outcome of the image-save phase `temp_imgs[0].save(self.epi_path_pdf, ...)`
(lines 308–313).  PIL's `save`, given a filename, opens the target with
`"w+b"` before the encoder runs, so a failure during encoding still
creates/truncates the canonical file; only a failure of the open itself
(before the file is created) leaves the path untouched. -/
inductive SavePhase
  | ok
  | failBeforeOpen
  | failAfterOpen
deriving DecidableEq

/-- Failure profile of one assembly attempt: the image-save phase's outcome,
and whether the metadata rewrite — reading the document back and rewriting it
through `open(self.epi_path_pdf, "wb")` (lines 315–327) — succeeds. -/
structure PdfAttempt where
  imageSave : SavePhase
  metaWriteOk : Bool

/-- One attempt of the inner `_()`: both phases write directly to
`self.epi_path_pdf`.  A successful image save and metadata rewrite leave the
finished artifact; a metadata rewrite that fails (a read failure, or a write
failure after `open(..., "wb")` truncated the file) leaves a file that is not
the finished artifact; an image save that fails after opening the path leaves
the created/truncated file; only an image save that fails before the open
leaves the path unchanged.  Returns (attempt succeeded?, state of the
canonical path). -/
def pdfAttempt (a : PdfAttempt) (st : FileState) : Bool × FileState :=
  match a.imageSave with
  | .ok => if a.metaWriteOk then (true, .complete) else (false, .partialFile)
  | .failBeforeOpen => (false, st)
  | .failAfterOpen => (false, .partialFile)

/-- The `@retry(stop_max_attempt_number=5)` loop: attempt `k` uses profile
`oracle k`; the loop stops at the first success, and after five failures the
exception is caught (lines 333–340), a message box is emitted and `saveToPDF`
returns normally.  Returns (assembly succeeded?, final state of the canonical
path). -/
def pdfRetryLoop (oracle : Nat → PdfAttempt) : Nat → Nat → FileState → Bool × FileState
  | 0, _, st => (false, st)
  | fuel + 1, k, st =>
    match pdfAttempt (oracle k) st with
    | (true, st2) => (true, st2)
    | (false, st2) => pdfRetryLoop oracle fuel (k + 1) st2

/-- `Episode.saveToPDF` acting on the canonical path's state. -/
def saveToPDF (oracle : Nat → PdfAttempt) (st : FileState) : Bool × FileState :=
  pdfRetryLoop oracle 5 0 st

/-! ## Temp-file cleanup (`Episode.clearAfterSave`, lines 263–294) -/

/-- Outcome of one `os.remove(img)` call: it removes the file; it raises
`OSError`; or it returns without the file disappearing, in which case the
`os.path.exists(img)` re-check (lines 276–277) raises `OSError`. -/
inductive RmOutcome
  | ok
  | raiseErr
  | silentKeep

/-- One pass of the inner `_()` over `reversed(imgs_path)` (lines 272–283).
`revPaths` is the list in processing (reverse-creation) order; per-call
outcomes come from `orc` indexed by a running call counter `cnt`; `disk` is
the set of files on disk; `trace` records each path as its deletion is
attempted.  On success the path is dropped from the live list
(`imgs_path.remove(img)`, line 283 — the paths of one episode are pairwise
distinct); on failure the `OSError` propagates, leaving the rest of the list
untouched.  Returns (pass succeeded?, next counter, remaining paths in
processing order, disk, trace). -/
def cleanupPass (orc : Nat → RmOutcome) :
    Nat → List String → List String → List String →
    Bool × Nat × List String × List String × List String
  | cnt, [], disk, trace => (true, cnt, [], disk, trace)
  | cnt, p :: rest, disk, trace =>
    match orc cnt with
    | .ok => cleanupPass orc (cnt + 1) rest (disk.erase p) (trace ++ [p])
    | .raiseErr => (false, cnt + 1, p :: rest, disk, trace ++ [p])
    | .silentKeep => (false, cnt + 1, p :: rest, disk, trace ++ [p])

/-- The `@retry(stop_max_attempt_number=5)` loop around the pass: a failed
pass is retried on the mutated list (the files not yet deleted); after five
failed passes the `OSError` is caught (lines 285–294), a message box is
emitted and `clearAfterSave` returns normally.  Returns (cleanup exhausted —
failure reported?, remaining paths in creation order, disk). -/
def cleanupLoop (orc : Nat → RmOutcome) :
    Nat → Nat → List String → List String → Bool × List String × List String
  | 0, _, paths, disk => (true, paths, disk)
  | fuel + 1, cnt, paths, disk =>
    match cleanupPass orc cnt paths.reverse disk [] with
    | (true, _, _, disk2, _) => (false, [], disk2)
    | (false, cnt2, remRev, disk2, _) =>
      cleanupLoop orc fuel cnt2 remRev.reverse disk2

/-- `Episode.clearAfterSave` on a list of temp paths in creation order. -/
def clearAfterSave (orc : Nat → RmOutcome) (paths disk : List String) :
    Bool × List String × List String :=
  cleanupLoop orc 5 0 paths disk

/-! ## Retry decorators across `Episode` (`@retry(...)` call sites) -/

/-- Operation class of a retried call site. -/
inductive OpClass | network | filesystem
deriving DecidableEq

/-- Stop condition of a `retrying.retry` decorator: `stop_max_delay`
(elapsed-time cap) or `stop_max_attempt_number` (attempt-count cap). -/
inductive StopCond
  | elapsedTimeCap
  | attemptCountCap (n : Nat)
deriving DecidableEq

/-- Wait strategy: `wait_exponential_multiplier` (exponentially growing
delay) or the decorator's no-wait default. -/
inductive WaitStrat | exponentialBackoff | noDelay
deriving DecidableEq

/-- One `@retry(...)` call site. -/
structure CallSite where
  site : String
  opClass : OpClass
  stop : StopCond
  wait : WaitStrat
deriving DecidableEq

/-- Every `@retry(...)` decorator in `src/Episode.py`, with its operation
class and policy, read off lines 112–113, 149–150, 271, 305, 351, 401, 443–444
and 482. -/
def retryCallSites : List CallSite :=
  [⟨"init_imgsList.GetImageIndex", .network, .elapsedTimeCap, .exponentialBackoff⟩,
   ⟨"init_imgsList.ImageToken", .network, .elapsedTimeCap, .exponentialBackoff⟩,
   ⟨"downloadImg.fetch", .network, .elapsedTimeCap, .exponentialBackoff⟩,
   ⟨"downloadImg.persist", .filesystem, .attemptCountCap 5, .noDelay⟩,
   ⟨"saveToPDF.assemble", .filesystem, .attemptCountCap 5, .noDelay⟩,
   ⟨"saveToFolder.assemble", .filesystem, .attemptCountCap 5, .noDelay⟩,
   ⟨"saveTo7z.compress", .filesystem, .attemptCountCap 5, .noDelay⟩,
   ⟨"clearAfterSave.delete", .filesystem, .attemptCountCap 5, .noDelay⟩]

/-- Attempts consumed by a bounded-count retry loop: stop at the first
success, never exceeding the cap. -/
def boundedCountAttempts (ok : Nat → Bool) : Nat → Nat → Nat
  | 0, _ => 0
  | fuel + 1, k => if ok k then 1 else 1 + boundedCountAttempts ok fuel (k + 1)

/-- A string with no trailing whitespace (the state after
`re.sub(r"\s+$", "", s)`). -/
def NoTrailWS (l : List Char) : Prop :=
  ∀ c, l.getLast? = some c → pyIsSpace c = false

/-- A string not beginning with a `[0-9\-]` character. -/
def HeadNotDD (l : List Char) : Prop :=
  ∀ c, l.head? = some c → digitOrDash c = false

/-! ## General list helpers -/

theorem map_id_of_fix {f : Char → Char} :
    ∀ {l : List Char}, (∀ c ∈ l, f c = c) → l.map f = l
  | [], _ => rfl
  | a :: l, h => by
    simp only [List.map_cons, h a (List.mem_cons_self a l),
      map_id_of_fix (fun c hc => h c (List.mem_cons_of_mem a hc))]

theorem head_dropWhile_false {p : Char → Bool} :
    ∀ {l : List Char} {c : Char}, (l.dropWhile p).head? = some c → p c = false := by
  intro l
  induction l with
  | nil => intro c h; simp [List.dropWhile] at h
  | cons a l ih =>
    intro c h
    by_cases ha : p a
    · rw [List.dropWhile_cons_of_pos ha] at h; exact ih h
    · rw [List.dropWhile_cons_of_neg ha] at h
      simp only [List.head?_cons, Option.some.injEq] at h
      rw [← h]
      exact Bool.not_eq_true _ ▸ ha

theorem dropWhile_eq_self_of_head {p : Char → Bool} {l : List Char}
    (h : ∀ c, l.head? = some c → p c = false) : l.dropWhile p = l := by
  cases l with
  | nil => rfl
  | cons a t =>
    exact List.dropWhile_cons_of_neg (by simp [h a rfl])

theorem takeWhile_eq_nil_of_head {p : Char → Bool} {l : List Char}
    (h : ∀ c, l.head? = some c → p c = false) : l.takeWhile p = [] := by
  cases l with
  | nil => rfl
  | cons a t =>
    exact List.takeWhile_cons_of_neg (by simp [h a rfl])

theorem takeWhile_append_all {p : Char → Bool} :
    ∀ {l₁ : List Char}, (∀ c ∈ l₁, p c = true) →
      ∀ l₂, (l₁ ++ l₂).takeWhile p = l₁ ++ l₂.takeWhile p
  | [], _, l₂ => rfl
  | a :: l₁, h, l₂ => by
    have ha := h a (List.mem_cons_self a l₁)
    simp only [List.cons_append, List.takeWhile_cons_of_pos ha]
    rw [takeWhile_append_all (fun c hc => h c (List.mem_cons_of_mem a hc)) l₂]

theorem dropWhile_append_all {p : Char → Bool} :
    ∀ {l₁ : List Char}, (∀ c ∈ l₁, p c = true) →
      ∀ l₂, (l₁ ++ l₂).dropWhile p = l₂.dropWhile p
  | [], _, l₂ => rfl
  | a :: l₁, h, l₂ => by
    have ha := h a (List.mem_cons_self a l₁)
    simp only [List.cons_append, List.dropWhile_cons_of_pos ha]
    exact dropWhile_append_all (fun c hc => h c (List.mem_cons_of_mem a hc)) l₂

theorem getLast?_cons_ne_nil {a : Char} {l : List Char} (h : l ≠ []) :
    (a :: l).getLast? = l.getLast? := by
  cases l with
  | nil => exact absurd rfl h
  | cons b t => exact List.getLast?_cons_cons

theorem getLast?_of_suffix {l₁ l₂ : List Char} (h : l₁ <:+ l₂) (hne : l₁ ≠ []) :
    l₁.getLast? = l₂.getLast? := by
  obtain ⟨pre, rfl⟩ := h
  exact (List.getLast?_append_of_ne_nil pre hne).symm

theorem dropLit_suffix : ∀ {pre l r : List Char}, dropLit pre l = some r → r <:+ l
  | [], l, r, h => by
    simp only [dropLit, Option.some.injEq] at h
    exact h ▸ List.suffix_refl l
  | p :: ps, [], r, h => by simp [dropLit] at h
  | p :: ps, c :: cs, r, h => by
    simp only [dropLit] at h
    split at h
    · exact (dropLit_suffix h).trans (List.suffix_cons c cs)
    · exact absurd h (by simp)

theorem dropLit_append : ∀ (pre l : List Char), dropLit pre (pre ++ l) = some l
  | [], l => rfl
  | p :: ps, l => by simp [dropLit, dropLit_append ps l]

/-! ## C1 — the already-downloaded skip check -/

/-- C1, counterexample: with save format `PDF` configured, an episode whose
folder artifact exists but whose PDF does not is nonetheless reported as
already downloaded — `isDownloaded` does not equal existence of the canonical
path of the configured format. -/
theorem c1_skip_check_counterexample :
    ¬ (isDownloaded (fun q => q == "dir/T") (mkEpiPaths "dir" "T") =
        (fun q => q == "dir/T") (canonicalFor SaveFmt.pdf (mkEpiPaths "dir" "T"))) := by
  decide

/-- C1 (amended): `Episode.isDownloaded` reports an episode as already
downloaded iff an artifact exists at the canonical path of *some* of the
three save formats — it consults all three canonical paths, not only the
configured one. -/
theorem c1_skip_check_amended (ex : String → Bool) (p : EpiPaths) :
    isDownloaded ex p = true ↔ ∃ f : SaveFmt, ex (canonicalFor f p) = true := by
  simp only [isDownloaded, Bool.or_eq_true]
  constructor
  · rintro ((h | h) | h)
    exacts [⟨.pdf, h⟩, ⟨.folder, h⟩, ⟨.sevenz, h⟩]
  · rintro ⟨f, h⟩
    cases f
    · exact Or.inl (Or.inl h)
    · exact Or.inl (Or.inr h)
    · exact Or.inr h

/-! ## C2 — metadata-resolution failure -/

/-- C2: when `init_imgsList` fails (`self.imgs_token` still `None`),
`download` emits the `-1` sentinel but — missing a `return` — falls through
to `enumerate(self.imgs_token, start=1)` and raises `TypeError`: cleanup
never runs and the exception escapes `download`. -/
theorem c2_metadata_failure_raises :
    download ⟨"12", "save", "PDF", none, fun _ => true⟩ (some "save/t.pdf") =
      ⟨[Ev.sentinel], some "TypeError", none, none, none⟩ := rfl

/-! ## C8 — retry-policy asymmetry -/

/-- C8: every `@retry` call site in `Episode` wraps a network operation with
the bounded-time policy (`stop_max_delay`, exponential wait) and a filesystem
operation with the bounded-count policy (`stop_max_attempt_number=5`, no
wait), and never the other way round; a bounded-count loop runs at most its
cap of attempts. -/
theorem c8_retry_asymmetry :
    (∀ cs ∈ retryCallSites,
        (cs.opClass = OpClass.network ↔
          cs.stop = StopCond.elapsedTimeCap ∧ cs.wait = WaitStrat.exponentialBackoff) ∧
        (cs.opClass = OpClass.filesystem ↔
          cs.stop = StopCond.attemptCountCap 5 ∧ cs.wait = WaitStrat.noDelay)) ∧
    (∀ (ok : Nat → Bool) (fuel k : Nat), boundedCountAttempts ok fuel k ≤ fuel) := by
  constructor
  · decide
  · intro ok fuel
    induction fuel with
    | zero => intro k; simp [boundedCountAttempts]
    | succ n ih =>
      intro k
      simp only [boundedCountAttempts]
      split
      · omega
      · have := ih (k + 1); omega

/-- C8 witness: the policy table instantiated at the page-fetch call site. -/
theorem c8_retry_asymmetry_witness :
    ((CallSite.opClass ⟨"downloadImg.fetch", .network, .elapsedTimeCap, .exponentialBackoff⟩ =
        OpClass.network ↔
      CallSite.stop ⟨"downloadImg.fetch", .network, .elapsedTimeCap, .exponentialBackoff⟩ =
        StopCond.elapsedTimeCap ∧
      CallSite.wait ⟨"downloadImg.fetch", .network, .elapsedTimeCap, .exponentialBackoff⟩ =
        WaitStrat.exponentialBackoff) ∧
    (CallSite.opClass ⟨"downloadImg.fetch", .network, .elapsedTimeCap, .exponentialBackoff⟩ =
        OpClass.filesystem ↔
      CallSite.stop ⟨"downloadImg.fetch", .network, .elapsedTimeCap, .exponentialBackoff⟩ =
        StopCond.attemptCountCap 5 ∧
      CallSite.wait ⟨"downloadImg.fetch", .network, .elapsedTimeCap, .exponentialBackoff⟩ =
        WaitStrat.noDelay)) ∧
    boundedCountAttempts (fun _ => false) 5 0 ≤ 5 :=
  ⟨c8_retry_asymmetry.1 ⟨"downloadImg.fetch", .network, .elapsedTimeCap, .exponentialBackoff⟩
      (by decide),
   c8_retry_asymmetry.2 (fun _ => false) 5 0⟩

/-! ## C10 — unrecognized save method -/

/-- C10: for a `save_method` outside the three recognized values the
constructor's `if/elif` chain never assigns `self.epi_path`; the first
per-page progress report of `download` then raises `AttributeError`, before
any assembler variant is dispatched and before cleanup. -/
theorem c10_unknown_save_method (m : String) (p : EpiPaths) (env : DlEnv) (n : Nat)
    (hm1 : m ≠ "PDF") (hm2 : m ≠ "文件夹-图片") (hm3 : m ≠ "7z压缩包")
    (htok : env.imgsToken = some (n + 1)) (hok : env.pageOk 1 = true) :
    epiPathFor m p = none ∧
      download env (epiPathFor m p) = ⟨[], some "AttributeError", none, none, none⟩ := by
  have hpath : epiPathFor m p = none := by simp [epiPathFor, hm1, hm2, hm3]
  refine ⟨hpath, ?_⟩
  rw [hpath]
  unfold download
  rw [htok]
  simp [dlLoop, hok]

/-- C10 witness: a concrete one-page episode configured with
`save_method = "zip"`. -/
theorem c10_unknown_save_method_witness :
    epiPathFor "zip" (mkEpiPaths "d" "t") = none ∧
      download ⟨"12", "d", "zip", some 1, fun _ => true⟩ (epiPathFor "zip" (mkEpiPaths "d" "t")) =
        ⟨[], some "AttributeError", none, none, none⟩ :=
  c10_unknown_save_method "zip" (mkEpiPaths "d" "t") ⟨"12", "d", "zip", some 1, fun _ => true⟩ 0
    (by decide) (by decide) (by decide) rfl rfl

/-! ## C3 — assembly failure and the canonical path -/

theorem pdfRetryLoop_absent (oracle : Nat → PdfAttempt) :
    ∀ (fuel k : Nat) (st : FileState),
      (pdfRetryLoop oracle fuel k st).1 = false →
      ((pdfRetryLoop oracle fuel k st).2 = FileState.absent ↔
        (st = FileState.absent ∧
          ∀ i, k ≤ i → i < k + fuel →
            (oracle i).imageSave = SavePhase.failBeforeOpen)) := by
  intro fuel
  induction fuel with
  | zero =>
    intro k st _
    simp only [pdfRetryLoop]
    constructor
    · intro hst
      exact ⟨hst, fun i h1 h2 => absurd h2 (by omega)⟩
    · exact fun h => h.1
  | succ n ih =>
    intro k st hfail
    cases h1 : (oracle k).imageSave with
    | ok =>
      by_cases h2 : (oracle k).metaWriteOk
      · simp [pdfRetryLoop, pdfAttempt, h1, h2] at hfail
      · have hred : pdfRetryLoop oracle (n + 1) k st =
            pdfRetryLoop oracle n (k + 1) FileState.partialFile := by
          simp [pdfRetryLoop, pdfAttempt, h1, h2]
        rw [hred] at hfail ⊢
        rw [ih (k + 1) FileState.partialFile hfail]
        constructor
        · rintro ⟨h, -⟩; exact absurd h (by simp)
        · rintro ⟨-, h⟩
          exact absurd (h k (Nat.le_refl k) (by omega)) (by simp [h1])
    | failAfterOpen =>
      have hred : pdfRetryLoop oracle (n + 1) k st =
          pdfRetryLoop oracle n (k + 1) FileState.partialFile := by
        simp [pdfRetryLoop, pdfAttempt, h1]
      rw [hred] at hfail ⊢
      rw [ih (k + 1) FileState.partialFile hfail]
      constructor
      · rintro ⟨h, -⟩; exact absurd h (by simp)
      · rintro ⟨-, h⟩
        exact absurd (h k (Nat.le_refl k) (by omega)) (by simp [h1])
    | failBeforeOpen =>
      have hred : pdfRetryLoop oracle (n + 1) k st =
          pdfRetryLoop oracle n (k + 1) st := by
        simp [pdfRetryLoop, pdfAttempt, h1]
      rw [hred] at hfail ⊢
      rw [ih (k + 1) st hfail]
      constructor
      · rintro ⟨hst, h⟩
        refine ⟨hst, fun i hki hik => ?_⟩
        rcases Nat.eq_or_lt_of_le hki with rfl | hlt
        · exact h1
        · exact h i hlt (by omega)
      · rintro ⟨hst, h⟩
        exact ⟨hst, fun i hki hik => h i (by omega) (by omega)⟩

/-- C3, counterexample: an assembly run in which every attempt's image save
succeeds but the metadata rewrite fails leaves a (truncated) file at the
canonical PDF path even though all five attempts failed — the claim that a
fully failed assembly leaves no file at the canonical path is false. -/
theorem c3_partial_output_counterexample :
    (saveToPDF (fun _ => ⟨SavePhase.ok, false⟩) FileState.absent).1 = false ∧
    (saveToPDF (fun _ => ⟨SavePhase.ok, false⟩) FileState.absent).2 ≠ FileState.absent := by
  decide

/-- C3 (amended): `saveToPDF` writes directly to the canonical path and never
removes it on failure; after an assembly that failed on every retry, the
canonical PDF path is absent iff it was absent before and every attempt's
image save failed before even opening the canonical path — an attempt that
reached PIL's `"w+b"` open of `epi_path_pdf` (even if encoding then failed),
or whose metadata rewrite failed after `open(..., "wb")`, leaves a
created/truncated file behind. -/
theorem c3_no_partial_output_amended (oracle : Nat → PdfAttempt) (st : FileState)
    (hfail : (saveToPDF oracle st).1 = false) :
    ((saveToPDF oracle st).2 = FileState.absent ↔
      (st = FileState.absent ∧
        ∀ i, i < 5 → (oracle i).imageSave = SavePhase.failBeforeOpen)) := by
  have h := pdfRetryLoop_absent oracle 5 0 st hfail
  rw [saveToPDF] at *
  rw [h]
  constructor
  · rintro ⟨h1, h2⟩
    exact ⟨h1, fun i hi => h2 i (Nat.zero_le i) (by omega)⟩
  · rintro ⟨h1, h2⟩
    exact ⟨h1, fun i _ hik => h2 i (by omega)⟩

/-- C3 witness: an assembly whose every attempt fails before opening the
canonical path, starting from an absent canonical path. -/
theorem c3_no_partial_output_amended_witness :
    (saveToPDF (fun _ => ⟨SavePhase.failBeforeOpen, false⟩) FileState.absent).1 = false ∧
    ((saveToPDF (fun _ => ⟨SavePhase.failBeforeOpen, false⟩) FileState.absent).2 =
        FileState.absent ↔
      (FileState.absent = FileState.absent ∧
        ∀ i, i < 5 →
          ((fun _ => (⟨SavePhase.failBeforeOpen, false⟩ : PdfAttempt)) i).imageSave =
            SavePhase.failBeforeOpen)) :=
  ⟨by decide, c3_no_partial_output_amended (fun _ => ⟨SavePhase.failBeforeOpen, false⟩)
    FileState.absent (by decide)⟩

/-! ## C4 — the integrity gate -/

/-- C4: the per-attempt gate accepts a response exactly when its status is 200
and its `Etag` header equals the MD5 digest of its body; every body the fetch
loop returns came from such a response; a response whose checksum mismatches
is never accepted (the attempt is retried, and an exhausted stream yields
`none`); `downloadImg` persists exactly the accepted bytes to the temp path;
and a page whose fetch fails makes `download` emit the failure sentinel and
stop before assembly, so its bytes are never passed to an assembler. -/
theorem c4_integrity_gate (md5 : List Nat → List Char) :
    (∀ r : Response,
      acceptResponse md5 r = true ↔ (r.status = 200 ∧ r.etag = md5 r.body)) ∧
    (∀ (r : Response) (rs : List Response), acceptResponse md5 r = true →
      fetchRetry md5 (r :: rs) = some r.body) ∧
    (∀ (r : Response) (rs : List Response), acceptResponse md5 r = false →
      fetchRetry md5 (r :: rs) = fetchRetry md5 rs) ∧
    (∀ (rs : List Response) (b : List Nat), fetchRetry md5 rs = some b →
      ∃ r ∈ rs, r.status = 200 ∧ r.etag = md5 r.body ∧ b = r.body) ∧
    (∀ rs : List Response, (∀ r ∈ rs, r.status = 200 → r.etag ≠ md5 r.body) →
      fetchRetry md5 rs = none) ∧
    (∀ (rs : List Response) (w : Nat → Bool) (tp q : String) (b : List Nat),
      downloadImg md5 rs w tp = some (q, b) →
      q = tp ∧ fetchRetry md5 rs = some b) ∧
    (∀ (rs : List Response) (w : Nat → Bool) (tp : String),
      fetchRetry md5 rs = none → downloadImg md5 rs w tp = none) ∧
    (∀ (env : DlEnv) (p : Option String) (n : Nat),
      env.imgsToken = some (n + 1) → env.pageOk 1 = false →
      download env p = ⟨[Ev.sentinel], none, none, none, some []⟩) := by
  refine ⟨?_, ?_, ?_, ?_, ?_, ?_, ?_, ?_⟩
  · intro r
    simp [acceptResponse, Bool.and_eq_true, decide_eq_true_eq]
  · intro r rs h
    simp [fetchRetry, h]
  · intro r rs h
    simp [fetchRetry, h]
  · intro rs
    induction rs with
    | nil => intro b h; simp [fetchRetry] at h
    | cons r rs ih =>
      intro b h
      by_cases ha : acceptResponse md5 r = true
      · rw [fetchRetry, if_pos ha] at h
        obtain ⟨h200, hmd⟩ := by
          simpa [acceptResponse, Bool.and_eq_true, decide_eq_true_eq] using ha
        exact ⟨r, List.mem_cons_self r rs, h200, hmd,
          (Option.some.injEq _ _ ▸ h).symm⟩
      · rw [fetchRetry, if_neg ha] at h
        obtain ⟨r2, hmem, hr2⟩ := ih b h
        exact ⟨r2, List.mem_cons_of_mem r hmem, hr2⟩
  · intro rs
    induction rs with
    | nil => intro _; rfl
    | cons r rs ih =>
      intro h
      have ha : acceptResponse md5 r = false := by
        by_cases h200 : r.status = 200
        · simp [acceptResponse, h200, h r (List.mem_cons_self r rs) h200]
        · simp [acceptResponse, h200]
      rw [fetchRetry, if_neg (by simp [ha])]
      exact ih fun r2 hm => h r2 (List.mem_cons_of_mem r hm)
  · intro rs w tp q b h
    unfold downloadImg at h
    split at h
    · exact absurd h (by simp)
    · split at h
      · rename_i b2 hfetch _
        simp only [Option.some.injEq, Prod.mk.injEq] at h
        exact ⟨h.1.symm, by rw [hfetch, h.2]⟩
      · exact absurd h (by simp)
  · intro rs w tp h
    unfold downloadImg
    rw [h]
  · intro env p n htok hfail
    unfold download
    rw [htok]
    simp [dlLoop, hfail]

/-- C4 witness: a single accepted response under a constant digest model. -/
theorem c4_integrity_gate_witness :
    ∃ r ∈ [({ status := 200, etag := ['a'], body := [1] } : Response)],
      r.status = 200 ∧ r.etag = (fun _ => ['a']) r.body ∧ [1] = r.body :=
  (c4_integrity_gate (fun _ => ['a'])).2.2.2.1 [⟨200, ['a'], [1]⟩] [1] (by decide)

/-! ## C5 — page ordering -/

theorem range_map_shift {α : Type} (f : Nat → α) (k i : Nat) :
    (List.range (k + 1)).map (fun j => f (i + j)) =
      f i :: (List.range k).map (fun j => f (i + 1 + j)) := by
  rw [List.range_succ_eq_map, List.map_cons, List.map_map]
  refine congrArg₂ _ (by simp) ?_
  apply List.map_congr_left
  intro a _
  show f (i + (a + 1)) = f (i + 1 + a)
  congr 1
  omega

theorem range_map_ev (p : String) (k i : Nat) :
    (List.range (k + 1)).map (fun j => Ev.pageDone (i + j) p) =
      Ev.pageDone i p :: (List.range k).map (fun j => Ev.pageDone (i + 1 + j) p) :=
  range_map_shift (fun x => Ev.pageDone x p) k i

theorem range_map_tp (env : DlEnv) (k i : Nat) :
    (List.range (k + 1)).map (fun j => tempPath env (i + j)) =
      tempPath env i :: (List.range k).map (fun j => tempPath env (i + 1 + j)) :=
  range_map_shift (fun x => tempPath env x) k i

theorem dlLoop_all_ok (env : DlEnv) (p : String) :
    ∀ (k i : Nat) (acc : List String) (evs : List Ev),
      (∀ j, i ≤ j → j < i + k → env.pageOk j = true) →
      dlLoop env (some p) k i acc evs =
        { events := evs ++ (List.range k).map (fun j => Ev.pageDone (i + j) p)
          exn := none
          pagesForAssembly := some (acc ++ (List.range k).map (fun j => tempPath env (i + j)))
          assembled := if env.saveMethod = "PDF" ∨ env.saveMethod = "文件夹-图片" ∨
              env.saveMethod = "7z压缩包" then some env.saveMethod else none
          cleanedPaths := some (acc ++ (List.range k).map (fun j => tempPath env (i + j))) } := by
  intro k
  induction k with
  | zero =>
    intro i acc evs _
    simp [dlLoop]
  | succ m ih =>
    intro i acc evs h
    have hoki : env.pageOk i = true := h i (Nat.le_refl i) (by omega)
    have hr : dlLoop env (some p) (m + 1) i acc evs =
        dlLoop env (some p) m (i + 1) (acc ++ [tempPath env i]) (evs ++ [Ev.pageDone i p]) := by
      simp [dlLoop, hoki]
    rw [hr, ih (i + 1) _ _ (fun j h1 h2 => h j (by omega) (by omega)),
      range_map_ev p m i, range_map_tp env m i]
    simp only [List.append_assoc, List.singleton_append]

theorem folderEntriesAux_map_range (readFile : String → List Nat) (env : DlEnv) :
    ∀ (k i : Nat),
      folderEntriesAux readFile i ((List.range k).map (fun j => tempPath env (i + j))) =
        (List.range k).map
          (fun j => (zfill3 (i + j) ++ ".jpg", readFile (tempPath env (i + j)))) := by
  intro k
  induction k with
  | zero => intro i; rfl
  | succ m ih =>
    intro i
    rw [range_map_tp env m i,
      range_map_shift (fun x => (zfill3 x ++ ".jpg", readFile (tempPath env x))) m i]
    show (zfill3 i ++ ".jpg", readFile (tempPath env i)) ::
        folderEntriesAux readFile (i + 1) ((List.range m).map (fun j => tempPath env (i + 1 + j))) = _
    rw [ih (i + 1)]

/-- C5: with all page downloads succeeding, the `imgs_path` list handed to
the assemblers is exactly the temp paths of pages 1..n in index order; the
PDF's page sequence is then page 1's bytes, page 2's bytes, …, and the
folder entries are `001.jpg` ↦ page 1, `002.jpg` ↦ page 2, … — the i-th
output page is the page with index i, for any per-index page content
(page-level downloads are sequential within an episode, so no completion
order can reorder them). -/
theorem c5_page_order (env : DlEnv) (p : String) (n : Nat)
    (htok : env.imgsToken = some n)
    (hok : ∀ j, 1 ≤ j → j ≤ n → env.pageOk j = true) :
    (download env (some p)).pagesForAssembly =
      some ((List.range n).map (fun j => tempPath env (1 + j))) ∧
    (∀ readFile : String → List Nat,
      pdfPages ((List.range n).map (fun j => tempPath env (1 + j))) readFile =
        (List.range n).map (fun j => readFile (tempPath env (1 + j))) ∧
      folderEntries ((List.range n).map (fun j => tempPath env (1 + j))) readFile =
        (List.range n).map (fun j =>
          (zfill3 (1 + j) ++ ".jpg", readFile (tempPath env (1 + j))))) := by
  constructor
  · have h2 : download env (some p) = dlLoop env (some p) n 1 [] [] := by
      unfold download
      rw [htok]
    rw [h2, dlLoop_all_ok env p n 1 [] [] (fun j h1 h2 => hok j h1 (by omega))]
    simp
  · intro readFile
    exact ⟨by simp [pdfPages, List.map_map, Function.comp_def],
      folderEntriesAux_map_range readFile env n 1⟩

/-- C5 witness: a concrete two-page episode; the assembly input is
`["d/7_1.jpg", "d/7_2.jpg"]` and the folder entries pair `001.jpg` with page
1's file and `002.jpg` with page 2's. -/
theorem c5_page_order_witness :
    (download ⟨"7", "d", "PDF", some 2, fun _ => true⟩ (some "d/t.pdf")).pagesForAssembly =
      some ((List.range 2).map
        (fun j => tempPath ⟨"7", "d", "PDF", some 2, fun _ => true⟩ (1 + j))) ∧
    (∀ readFile : String → List Nat,
      pdfPages ((List.range 2).map
          (fun j => tempPath ⟨"7", "d", "PDF", some 2, fun _ => true⟩ (1 + j))) readFile =
        (List.range 2).map
          (fun j => readFile (tempPath ⟨"7", "d", "PDF", some 2, fun _ => true⟩ (1 + j))) ∧
      folderEntries ((List.range 2).map
          (fun j => tempPath ⟨"7", "d", "PDF", some 2, fun _ => true⟩ (1 + j))) readFile =
        (List.range 2).map (fun j =>
          (zfill3 (1 + j) ++ ".jpg",
            readFile (tempPath ⟨"7", "d", "PDF", some 2, fun _ => true⟩ (1 + j))))) :=
  c5_page_order ⟨"7", "d", "PDF", some 2, fun _ => true⟩ "d/t.pdf" 2 rfl
    (fun _ _ _ => rfl)

/-! ## C9 — the cleanup contract -/

theorem cleanupPass_all_ok (orc : Nat → RmOutcome) (hok : ∀ m, orc m = RmOutcome.ok) :
    ∀ (rev : List String) (cnt : Nat) (disk tr : List String),
      cleanupPass orc cnt rev disk tr =
        (true, cnt + rev.length, [], rev.foldl List.erase disk, tr ++ rev) := by
  intro rev
  induction rev with
  | nil => intro cnt disk tr; simp [cleanupPass]
  | cons p rest ih =>
    intro cnt disk tr
    have h1 : cleanupPass orc cnt (p :: rest) disk tr =
        cleanupPass orc (cnt + 1) rest (disk.erase p) (tr ++ [p]) := by
      simp [cleanupPass, hok cnt]
    rw [h1, ih]
    simp only [List.length_cons, List.foldl_cons, List.append_assoc,
      List.singleton_append, Prod.mk.injEq, and_true, true_and]
    omega

theorem mem_foldl_erase {q : String} :
    ∀ {rev d : List String}, q ∈ rev.foldl List.erase d → q ∈ d
  | [], _, h => h
  | _ :: _, _, h =>
    List.mem_of_mem_erase (mem_foldl_erase h)

theorem foldl_erase_not_mem {q : String} :
    ∀ {rev disk : List String}, q ∈ rev → disk.Nodup → q ∉ rev.foldl List.erase disk := by
  intro rev
  induction rev with
  | nil => intro disk h; simp at h
  | cons p rest ih =>
    intro disk hq hnd
    rcases List.mem_cons.mp hq with rfl | hmem
    · by_cases hrest : q ∈ rest
      · exact ih hrest (hnd.erase q)
      · intro hcon
        exact hnd.not_mem_erase (mem_foldl_erase hcon)
    · exact ih hmem (hnd.erase p)

theorem foldl_erase_other {q : String} :
    ∀ {rev disk : List String}, q ∉ rev →
      (q ∈ rev.foldl List.erase disk ↔ q ∈ disk) := by
  intro rev
  induction rev with
  | nil => intro disk _; exact Iff.rfl
  | cons p rest ih =>
    intro disk hq
    have hne : q ≠ p := fun h => hq (h ▸ List.mem_cons_self p rest)
    have hrest : q ∉ rest := fun h => hq (List.mem_cons_of_mem p h)
    exact (ih hrest).trans (List.mem_erase_of_ne hne)

theorem cleanupPass_drop (orc : Nat → RmOutcome) :
    ∀ (rev : List String) (cnt : Nat) (disk tr : List String),
      ∃ k, (cleanupPass orc cnt rev disk tr).2.2.1 = rev.drop k := by
  intro rev
  induction rev with
  | nil => intro cnt disk tr; exact ⟨0, rfl⟩
  | cons p rest ih =>
    intro cnt disk tr
    cases horc : orc cnt with
    | ok =>
      obtain ⟨k, hk⟩ := ih (cnt + 1) (disk.erase p) (tr ++ [p])
      refine ⟨k + 1, ?_⟩
      simp only [cleanupPass, horc]
      exact hk
    | raiseErr => exact ⟨0, by simp [cleanupPass, horc]⟩
    | silentKeep => exact ⟨0, by simp [cleanupPass, horc]⟩

theorem cleanupPass_disk_other (orc : Nat → RmOutcome) {q : String} :
    ∀ (rev : List String) (cnt : Nat) (disk tr : List String), q ∉ rev →
      (q ∈ (cleanupPass orc cnt rev disk tr).2.2.2.1 ↔ q ∈ disk) := by
  intro rev
  induction rev with
  | nil => intro cnt disk tr _; exact Iff.rfl
  | cons p rest ih =>
    intro cnt disk tr hq
    have hne : q ≠ p := fun h => hq (h ▸ List.mem_cons_self p rest)
    have hrest : q ∉ rest := fun h => hq (List.mem_cons_of_mem p h)
    cases horc : orc cnt with
    | ok =>
      have h1 : cleanupPass orc cnt (p :: rest) disk tr =
          cleanupPass orc (cnt + 1) rest (disk.erase p) (tr ++ [p]) := by
        simp [cleanupPass, horc]
      rw [h1]
      exact (ih (cnt + 1) (disk.erase p) (tr ++ [p]) hrest).trans (List.mem_erase_of_ne hne)
    | raiseErr => simp [cleanupPass, horc]
    | silentKeep => simp [cleanupPass, horc]

theorem cleanupLoop_take (orc : Nat → RmOutcome) :
    ∀ (fuel cnt : Nat) (paths disk : List String),
      ∃ k, (cleanupLoop orc fuel cnt paths disk).2.1 = paths.take k := by
  intro fuel
  induction fuel with
  | zero =>
    intro cnt paths disk
    exact ⟨paths.length, (List.take_length paths).symm⟩
  | succ m ih =>
    intro cnt paths disk
    rcases hp : cleanupPass orc cnt paths.reverse disk [] with ⟨b, cnt2, remRev, disk2, tr⟩
    cases b
    · obtain ⟨k, hk⟩ := cleanupPass_drop orc paths.reverse cnt disk []
      rw [hp] at hk
      simp only at hk
      have hloop : cleanupLoop orc (m + 1) cnt paths disk =
          cleanupLoop orc m cnt2 remRev.reverse disk2 := by
        simp [cleanupLoop, hp]
      obtain ⟨j, hj⟩ := ih cnt2 remRev.reverse disk2
      rw [hloop, hj, hk, List.drop_reverse, List.reverse_reverse, List.take_take]
      exact ⟨_, rfl⟩
    · have hloop : cleanupLoop orc (m + 1) cnt paths disk = (false, [], disk2) := by
        simp [cleanupLoop, hp]
      rw [hloop]
      exact ⟨0, rfl⟩

theorem cleanupLoop_disk_other (orc : Nat → RmOutcome) {q : String} :
    ∀ (fuel cnt : Nat) (paths disk : List String), q ∉ paths →
      (q ∈ (cleanupLoop orc fuel cnt paths disk).2.2 ↔ q ∈ disk) := by
  intro fuel
  induction fuel with
  | zero => intro cnt paths disk _; exact Iff.rfl
  | succ m ih =>
    intro cnt paths disk hq
    have hqrev : q ∉ paths.reverse := fun h => hq (List.mem_reverse.mp h)
    have hdisk := cleanupPass_disk_other orc paths.reverse cnt disk [] hqrev
    rcases hp : cleanupPass orc cnt paths.reverse disk [] with ⟨b, cnt2, remRev, disk2, tr⟩
    rw [hp] at hdisk
    have hrem : ∃ k, remRev = paths.reverse.drop k := by
      obtain ⟨k, hk⟩ := cleanupPass_drop orc paths.reverse cnt disk []
      rw [hp] at hk
      exact ⟨k, hk⟩
    cases b
    · have hqrem : q ∉ remRev.reverse := by
        intro hmem
        obtain ⟨k, rfl⟩ := hrem
        exact hqrev ((List.drop_sublist k paths.reverse).subset (List.mem_reverse.mp hmem))
      have hloop : cleanupLoop orc (m + 1) cnt paths disk =
          cleanupLoop orc m cnt2 remRev.reverse disk2 := by
        simp [cleanupLoop, hp]
      rw [hloop]
      exact (ih cnt2 remRev.reverse disk2 hqrem).trans hdisk
    · have hloop : cleanupLoop orc (m + 1) cnt paths disk = (false, [], disk2) := by
        simp [cleanupLoop, hp]
      rw [hloop]
      exact hdisk

theorem cleanupLoop_all_err (orc : Nat → RmOutcome)
    (herr : ∀ m, orc m = RmOutcome.raiseErr) :
    ∀ (fuel cnt : Nat) (paths disk : List String), paths ≠ [] →
      cleanupLoop orc fuel cnt paths disk = (true, paths, disk) := by
  intro fuel
  induction fuel with
  | zero => intro cnt paths disk _; rfl
  | succ m ih =>
    intro cnt paths disk hne
    obtain ⟨c, t, hrev⟩ := List.exists_cons_of_ne_nil
      (fun h => hne (by simpa using congrArg List.reverse h) : paths.reverse ≠ [])
    have hpass : cleanupPass orc cnt paths.reverse disk [] =
        (false, cnt + 1, paths.reverse, disk, [c]) := by
      rw [hrev]
      simp [cleanupPass, herr cnt]
    have hloop : cleanupLoop orc (m + 1) cnt paths disk =
        cleanupLoop orc m (cnt + 1) paths.reverse.reverse disk := by
      simp [cleanupLoop, hpass]
    rw [hloop, List.reverse_reverse]
    exact ih (cnt + 1) paths disk hne

/-- C9: after assembly, cleanup (i) attempts deletions in reverse creation
order; (ii) under an all-successful oracle it reports success, empties the
temp list and removes every temp file from disk; (iii) a deletion call after
which the file is still present counts as a failure and leaves that file,
with the rest, for the retried pass; (iv) each retried pass works on exactly
the files not yet successfully deleted (a prefix of the creation-order
list); (v) no file outside the temp list — in particular the produced output
artifact — is ever touched; (vi) when every attempt fails, after the 5-pass
bounded-count policy the exhaustion is reported (`True` flag, the caught
`OSError` path) and `clearAfterSave` still returns normally with the files
intact. -/
theorem c9_cleanup_contract (orc : Nat → RmOutcome) (paths disk : List String) :
    ((∀ m, orc m = RmOutcome.ok) →
      (cleanupPass orc 0 paths.reverse disk []).2.2.2.2 = paths.reverse) ∧
    ((∀ m, orc m = RmOutcome.ok) → disk.Nodup →
      (clearAfterSave orc paths disk).1 = false ∧
      (clearAfterSave orc paths disk).2.1 = [] ∧
      (∀ p ∈ paths, p ∉ (clearAfterSave orc paths disk).2.2)) ∧
    (∀ (cnt : Nat) (p : String) (rest d tr : List String),
      orc cnt = RmOutcome.silentKeep →
      cleanupPass orc cnt (p :: rest) d tr = (false, cnt + 1, p :: rest, d, tr ++ [p])) ∧
    (∃ k, (clearAfterSave orc paths disk).2.1 = paths.take k) ∧
    (∀ q, q ∉ paths → (q ∈ (clearAfterSave orc paths disk).2.2 ↔ q ∈ disk)) ∧
    (paths ≠ [] → (∀ m, orc m = RmOutcome.raiseErr) →
      clearAfterSave orc paths disk = (true, paths, disk)) := by
  refine ⟨?_, ?_, ?_, ?_, ?_, ?_⟩
  · intro hok
    rw [cleanupPass_all_ok orc hok paths.reverse 0 disk []]
    simp
  · intro hok hnd
    have hpass := cleanupPass_all_ok orc hok paths.reverse 0 disk []
    have hfirst : ∀ fuel, cleanupLoop orc (fuel + 1) 0 paths disk =
        (false, [], paths.reverse.foldl List.erase disk) := by
      intro fuel
      simp [cleanupLoop, hpass]
    have hloop : clearAfterSave orc paths disk =
        (false, [], paths.reverse.foldl List.erase disk) := hfirst 4
    rw [hloop]
    refine ⟨rfl, rfl, ?_⟩
    intro p hp
    exact foldl_erase_not_mem (List.mem_reverse.mpr hp) hnd
  · intro cnt p rest d tr h
    simp [cleanupPass, h]
  · exact cleanupLoop_take orc 5 0 paths disk
  · intro q hq
    exact cleanupLoop_disk_other orc 5 0 paths disk hq
  · intro hne herr
    exact cleanupLoop_all_err orc herr 5 0 paths disk hne

/-- C9 witness: two temp files and one unrelated file on disk, all deletions
succeeding. -/
theorem c9_cleanup_contract_witness :
    (clearAfterSave (fun _ => RmOutcome.ok) ["a", "b"] ["x", "a", "b"]).1 = false ∧
    (clearAfterSave (fun _ => RmOutcome.ok) ["a", "b"] ["x", "a", "b"]).2.1 = [] ∧
    (∀ p ∈ ["a", "b"],
      p ∉ (clearAfterSave (fun _ => RmOutcome.ok) ["a", "b"] ["x", "a", "b"]).2.2) :=
  (c9_cleanup_contract (fun _ => RmOutcome.ok) ["a", "b"] ["x", "a", "b"]).2.1
    (fun _ => rfl) (by decide)

/-! ## C6 — the title-normalization rules -/

/-- C6, counterexample: for short-title `"05"` and long-title `"第5话"` the
code's rule 5 (string comparison `temp[1] == temp[2]`) does not collapse,
yielding `"第05话 第5话"`, while §4.1's numeric rule 5 yields `"第5话"` —
the code does not implement the seven rules as §4.1 states them. -/
theorem c6_title_rules_counterexample :
    mkTitle "05".toList "第5话".toList = "第05话 第5话".toList ∧
    specTitleNumeric "05".toList "第5话".toList = "第5话".toList ∧
    mkTitle "05".toList "第5话".toList ≠ specTitleNumeric "05".toList "第5话".toList :=
  ⟨by decide, by decide, by decide⟩

/-- C6 (amended): the title is computed by the seven rules in the stated
order, with rule 5's collapse conditioned on *string* equality of the two
digit runs (numerically equal runs differing in leading zeros are not
collapsed); the two quoted examples hold. -/
theorem c6_title_rules_amended :
    mkTitle "1".toList "".toList = "第1话".toList ∧
    mkTitle "第5话".toList "第5话".toList = "第5话".toList ∧
    (∀ (d1 d2 rest : List Char),
      (∀ c ∈ d1, c.isDigit = true) → (∀ c ∈ d2, c.isDigit = true) →
      d1 ≠ [] → d2 ≠ [] →
      collapseNumDup (d1 ++ ' ' :: '第' :: (d2 ++ '话' :: rest)) =
        if d1 = d2 then '第' :: (d2 ++ '话' :: rest)
        else d1 ++ ' ' :: '第' :: (d2 ++ '话' :: rest)) := by
  refine ⟨by decide, by decide, ?_⟩
  intro d1 d2 rest hd1 hd2 hne1 hne2
  have h1 : (d1 ++ ' ' :: '第' :: (d2 ++ '话' :: rest)).takeWhile Char.isDigit = d1 := by
    rw [takeWhile_append_all hd1, List.takeWhile_cons_of_neg (by decide)]
    simp
  have h2 : (d1 ++ ' ' :: '第' :: (d2 ++ '话' :: rest)).dropWhile Char.isDigit =
      ' ' :: '第' :: (d2 ++ '话' :: rest) := by
    rw [dropWhile_append_all hd1, List.dropWhile_cons_of_neg (by decide)]
  have h3 : (' ' :: '第' :: (d2 ++ '话' :: rest)).takeWhile pyIsSpace =
      ' ' :: ([] : List Char) := by
    rw [List.takeWhile_cons_of_pos (by decide), List.takeWhile_cons_of_neg (by decide)]
  have h4 : (' ' :: '第' :: (d2 ++ '话' :: rest)).dropWhile pyIsSpace =
      '第' :: (d2 ++ '话' :: rest) := by
    rw [List.dropWhile_cons_of_pos (by decide), List.dropWhile_cons_of_neg (by decide)]
  have h5 : (d2 ++ '话' :: rest).takeWhile Char.isDigit = d2 := by
    rw [takeWhile_append_all hd2, List.takeWhile_cons_of_neg (by decide)]
    simp
  have h6 : (d2 ++ '话' :: rest).dropWhile Char.isDigit = '话' :: rest := by
    rw [dropWhile_append_all hd2, List.dropWhile_cons_of_neg (by decide)]
  simp only [collapseNumDup, h1, h2, h3, h4, h5, h6]
  rw [if_neg (by simp [hne1])]
  simp only [List.head?_cons, Option.some.injEq]
  by_cases heq : d1 = d2
  · rw [if_pos ⟨hne2, trivial, heq⟩, if_pos heq]
  · rw [if_neg (fun hand => heq hand.2.2), if_neg heq]

/-- C6 witness: the rule-5 characterization at digit runs `"05"` and `"5"`. -/
theorem c6_title_rules_amended_witness :
    collapseNumDup (['0', '5'] ++ ' ' :: '第' :: (['5'] ++ '话' :: [])) =
      if ['0', '5'] = ['5'] then '第' :: (['5'] ++ '话' :: [])
      else ['0', '5'] ++ ' ' :: '第' :: (['5'] ++ '话' :: []) :=
  c6_title_rules_amended.2.2 ['0', '5'] ['5'] [] (by decide) (by decide)
    (by decide) (by decide)

/-! ## C7 — idempotence of title normalization -/

theorem takeWhile_nil_head {p : Char → Bool} {l : List Char}
    (h : l.takeWhile p = []) : ∀ c, l.head? = some c → p c = false := by
  intro c hc
  cases l with
  | nil => simp at hc
  | cons a t =>
    simp only [List.head?_cons, Option.some.injEq] at hc
    rw [← hc]
    by_cases hp : p a
    · rw [List.takeWhile_cons_of_pos hp] at h
      simp at h
    · exact Bool.not_eq_true _ ▸ hp

theorem collapseNumDup_cases (t : List Char) :
    collapseNumDup t = t ∨
    collapseNumDup t = (t.dropWhile Char.isDigit).dropWhile pyIsSpace := by
  simp only [collapseNumDup]
  split
  · exact Or.inl rfl
  · split
    · split
      · exact Or.inr rfl
      · exact Or.inl rfl
    · exact Or.inl rfl

theorem collapseSpecialDup_cases (t : List Char) :
    collapseSpecialDup t = t ∨
    ∃ r1 rest, dropLit tbp t = some r1 ∧
      dropLit tbp (r1.dropWhile pyIsSpace) = some rest ∧
      collapseSpecialDup t = tbp ++ rest := by
  cases hd : dropLit tbp t with
  | none => exact Or.inl (by simp [collapseSpecialDup, hd])
  | some r1 =>
    cases htw : r1.takeWhile pyIsSpace with
    | nil => exact Or.inl (by simp [collapseSpecialDup, hd, htw])
    | cons w ws =>
      cases hdl : dropLit tbp (r1.dropWhile pyIsSpace) with
      | none => exact Or.inl (by simp [collapseSpecialDup, hd, htw, hdl])
      | some rest =>
        exact Or.inr ⟨r1, rest, rfl, hdl, by simp [collapseSpecialDup, hd, htw, hdl]⟩

theorem prefixChapter_cases (t : List Char) :
    (t.takeWhile digitOrDash = [] ∧ prefixChapter t = t) ∨
    (t ≠ [] ∧ prefixChapter t = '第' :: t) ∨
    prefixChapter t =
      '第' :: (t.takeWhile digitOrDash ++ '话' :: t.dropWhile digitOrDash) := by
  cases htk : t.takeWhile digitOrDash with
  | nil => exact Or.inl ⟨rfl, by simp [prefixChapter, htk]⟩
  | cons a r =>
    cases hdr : t.dropWhile digitOrDash with
    | nil =>
      refine Or.inr (Or.inr ?_)
      simp [prefixChapter, htk, hdr]
    | cons b rest =>
      by_cases hb : b = '话'
      · subst hb
        refine Or.inr (Or.inl ⟨?_, ?_⟩)
        · intro hnil
          rw [hnil] at htk
          simp at htk
        · simp [prefixChapter, htk, hdr]
      · refine Or.inr (Or.inr ?_)
        simp [prefixChapter, htk, hdr, hb]

theorem mem_replaceForbidden {c : Char} {s : List Char} (h : c ∈ replaceForbidden s) :
    forbiddenChar c = false := by
  obtain ⟨a, _, ha⟩ := List.mem_map.mp h
  by_cases hf : forbiddenChar a
  · rw [if_pos hf] at ha
    rw [← ha]
    decide
  · rw [if_neg hf] at ha
    rw [← ha]
    exact Bool.not_eq_true _ ▸ hf

theorem mem_rstrip {c : Char} {s : List Char} (h : c ∈ rstripSpaces s) : c ∈ s := by
  unfold rstripSpaces at h
  exact List.mem_reverse.mp ((List.dropWhile_suffix pyIsSpace).mem (List.mem_reverse.mp h))

theorem sanitize_clean {c : Char} {s : List Char} (h : c ∈ sanitize s) :
    forbiddenChar c = false ∧ c ≠ '.' := by
  obtain ⟨a, ha, hc⟩ := List.mem_map.mp h
  by_cases hd : a = '.'
  · rw [if_pos hd] at hc
    rw [← hc]
    exact ⟨by decide, by decide⟩
  · rw [if_neg hd] at hc
    rw [← hc]
    exact ⟨mem_replaceForbidden (mem_rstrip ha), hd⟩

theorem join_clean {c : Char} {a b : List Char}
    (hca : ∀ x ∈ a, forbiddenChar x = false ∧ x ≠ '.')
    (hcb : ∀ x ∈ b, forbiddenChar x = false ∧ x ≠ '.')
    (h : c ∈ joinTitles a b) : forbiddenChar c = false ∧ c ≠ '.' := by
  unfold joinTitles at h
  split at h
  · exact hca c h
  · rcases List.mem_append.mp h with h | h
    · exact hca c h
    · rcases List.mem_cons.mp h with rfl | h
      · exact ⟨by decide, by decide⟩
      · exact hcb c h

theorem mem_collapseNumDup {c : Char} {t : List Char} (h : c ∈ collapseNumDup t) :
    c ∈ t := by
  rcases collapseNumDup_cases t with he | he
  · rwa [he] at h
  · rw [he] at h
    exact (List.dropWhile_suffix _).mem ((List.dropWhile_suffix _).mem h)

theorem collapseSpecialDup_clean {c : Char} {t : List Char}
    (hct : ∀ x ∈ t, forbiddenChar x = false ∧ x ≠ '.')
    (h : c ∈ collapseSpecialDup t) : forbiddenChar c = false ∧ c ≠ '.' := by
  rcases collapseSpecialDup_cases t with he | ⟨r1, rest, h1, h2, he⟩
  · rw [he] at h
    exact hct c h
  · rw [he] at h
    rcases List.mem_append.mp h with h | h
    · fin_cases h
      · exact ⟨by decide, by decide⟩
      · exact ⟨by decide, by decide⟩
      · exact ⟨by decide, by decide⟩
    · have hsfx : rest <:+ t :=
        ((dropLit_suffix h2).trans (List.dropWhile_suffix pyIsSpace)).trans (dropLit_suffix h1)
      exact hct c (hsfx.mem h)

theorem prefixChapter_clean {c : Char} {t : List Char}
    (hct : ∀ x ∈ t, forbiddenChar x = false ∧ x ≠ '.')
    (h : c ∈ prefixChapter t) : forbiddenChar c = false ∧ c ≠ '.' := by
  rcases prefixChapter_cases t with ⟨-, he⟩ | ⟨-, he⟩ | he <;> rw [he] at h
  · exact hct c h
  · rcases List.mem_cons.mp h with rfl | h
    · exact ⟨by decide, by decide⟩
    · exact hct c h
  · rcases List.mem_cons.mp h with rfl | h
    · exact ⟨by decide, by decide⟩
    · rcases List.mem_append.mp h with h | h
      · exact hct c ((List.takeWhile_sublist digitOrDash).subset h)
      · rcases List.mem_cons.mp h with rfl | h
        · exact ⟨by decide, by decide⟩
        · exact hct c ((List.dropWhile_sublist digitOrDash).subset h)

theorem mkTitle_clean (s l : List Char) :
    ∀ c ∈ mkTitle s l, forbiddenChar c = false ∧ c ≠ '.' := by
  intro c hc
  unfold mkTitle at hc
  refine prefixChapter_clean ?_ hc
  intro x hx
  refine collapseSpecialDup_clean ?_ hx
  intro y hy
  refine join_clean (fun z hz => sanitize_clean hz) (fun z hz => sanitize_clean hz)
    (mem_collapseNumDup hy)

theorem replaceForbidden_id {t : List Char}
    (h : ∀ c ∈ t, forbiddenChar c = false) : replaceForbidden t = t :=
  map_id_of_fix (fun c hc => by simp [h c hc])

theorem dotToMiddleDot_id {t : List Char} (h : ∀ c ∈ t, c ≠ '.') :
    dotToMiddleDot t = t :=
  map_id_of_fix (fun c hc => if_neg (h c hc))

theorem getLast?_map_char (f : Char → Char) (t : List Char) :
    (t.map f).getLast? = t.getLast?.map f := by
  rw [← List.head?_reverse, show (t.map f).reverse = t.reverse.map f from
    (List.map_reverse f t).symm, List.head?_map, List.head?_reverse]

theorem noTrail_rstrip (s : List Char) : NoTrailWS (rstripSpaces s) := by
  intro c hc
  unfold rstripSpaces at hc
  rw [List.getLast?_reverse] at hc
  exact head_dropWhile_false hc

theorem noTrail_dot {t : List Char} (h : NoTrailWS t) : NoTrailWS (dotToMiddleDot t) := by
  intro c hc
  unfold dotToMiddleDot at hc
  rw [getLast?_map_char] at hc
  obtain ⟨a, ha, hfa⟩ := Option.map_eq_some'.mp hc
  by_cases hd : a = '.'
  · rw [if_pos hd] at hfa
    rw [← hfa]
    decide
  · rw [if_neg hd] at hfa
    rw [← hfa]
    exact h a ha

theorem noTrail_sanitize (s : List Char) : NoTrailWS (sanitize s) :=
  noTrail_dot (noTrail_rstrip (replaceForbidden s))

theorem noTrail_join {a b : List Char} (ha : NoTrailWS a) (hb : NoTrailWS b) :
    NoTrailWS (joinTitles a b) := by
  unfold joinTitles
  split
  · exact ha
  · rename_i hcond
    intro c hc
    have hbne : b ≠ [] := fun h => hcond (Or.inr h)
    rw [List.getLast?_append_of_ne_nil _ (by simp : (' ' :: b) ≠ []),
      getLast?_cons_ne_nil hbne] at hc
    exact hb c hc

theorem noTrail_collapseNumDup {t : List Char} (h : NoTrailWS t) :
    NoTrailWS (collapseNumDup t) := by
  rcases collapseNumDup_cases t with he | he <;> rw [he]
  · exact h
  · intro c hc
    by_cases hne : (t.dropWhile Char.isDigit).dropWhile pyIsSpace = []
    · rw [hne] at hc
      simp at hc
    · rw [getLast?_of_suffix
        ((List.dropWhile_suffix pyIsSpace).trans (List.dropWhile_suffix Char.isDigit)) hne] at hc
      exact h c hc

theorem noTrail_collapseSpecialDup {t : List Char} (h : NoTrailWS t) :
    NoTrailWS (collapseSpecialDup t) := by
  rcases collapseSpecialDup_cases t with he | ⟨r1, rest, h1, h2, he⟩ <;> rw [he]
  · exact h
  · intro c hc
    by_cases hrest : rest = []
    · subst hrest
      rw [List.append_nil] at hc
      have : c = '篇' := by
        simpa [tbp] using hc.symm
      rw [this]
      decide
    · rw [List.getLast?_append_of_ne_nil _ hrest] at hc
      have hsfx : rest <:+ t :=
        ((dropLit_suffix h2).trans (List.dropWhile_suffix pyIsSpace)).trans (dropLit_suffix h1)
      rw [getLast?_of_suffix hsfx hrest] at hc
      exact h c hc

theorem noTrail_prefixChapter {t : List Char} (h : NoTrailWS t) :
    NoTrailWS (prefixChapter t) := by
  rcases prefixChapter_cases t with ⟨-, he⟩ | ⟨hne, he⟩ | he <;> rw [he]
  · exact h
  · intro c hc
    rw [getLast?_cons_ne_nil hne] at hc
    exact h c hc
  · intro c hc
    rw [getLast?_cons_ne_nil (by simp)] at hc
    rw [List.getLast?_append_of_ne_nil _ (List.cons_ne_nil '话' _)] at hc
    by_cases hrest : t.dropWhile digitOrDash = []
    · rw [hrest] at hc
      have : c = '话' := by simpa using hc.symm
      rw [this]
      decide
    · rw [getLast?_cons_ne_nil hrest,
        getLast?_of_suffix (List.dropWhile_suffix digitOrDash) hrest] at hc
      exact h c hc

theorem mkTitle_noTrail (s l : List Char) : NoTrailWS (mkTitle s l) :=
  noTrail_prefixChapter (noTrail_collapseSpecialDup (noTrail_collapseNumDup
    (noTrail_join (noTrail_sanitize s) (noTrail_sanitize l))))

theorem rstrip_id {t : List Char} (h : NoTrailWS t) : rstripSpaces t = t := by
  unfold rstripSpaces
  have hh : ∀ c, t.reverse.head? = some c → pyIsSpace c = false := by
    intro c hc
    rw [List.head?_reverse] at hc
    exact h c hc
  rw [dropWhile_eq_self_of_head hh, List.reverse_reverse]

theorem headNotDD_prefixChapter (t : List Char) : HeadNotDD (prefixChapter t) := by
  rcases prefixChapter_cases t with ⟨htk, he⟩ | ⟨-, he⟩ | he <;> rw [he]
  · exact takeWhile_nil_head htk
  · intro c hc
    have : c = '第' := by simpa using hc.symm
    rw [this]
    decide
  · intro c hc
    have : c = '第' := by simpa using hc.symm
    rw [this]
    decide

theorem collapseNumDup_id_of_head {t : List Char} (h : HeadNotDD t) :
    collapseNumDup t = t := by
  have hd1 : t.takeWhile Char.isDigit = [] := by
    apply takeWhile_eq_nil_of_head
    intro c hc
    have := h c hc
    unfold digitOrDash at this
    exact (Bool.or_eq_false_iff.mp this).1
  simp [collapseNumDup, hd1]

theorem prefixChapter_id_of_head {t : List Char} (h : HeadNotDD t) :
    prefixChapter t = t := by
  have hr : t.takeWhile digitOrDash = [] := takeWhile_eq_nil_of_head h
  simp [prefixChapter, hr]

theorem collapseSpecialDup_id_of_no_match {t : List Char}
    (h : specialDupMatches t = false) : collapseSpecialDup t = t := by
  cases hd : dropLit tbp t with
  | none => simp [collapseSpecialDup, hd]
  | some r1 =>
    cases htw : r1.takeWhile pyIsSpace with
    | nil => simp [collapseSpecialDup, hd, htw]
    | cons w ws =>
      cases hdl : dropLit tbp (r1.dropWhile pyIsSpace) with
      | none => simp [collapseSpecialDup, hd, htw, hdl]
      | some rest =>
        rw [specialDupMatches, hd] at h
        simp only [htw, hdl] at h
        simp at h

/-- C7, counterexample: `normalize` is not idempotent — on
`"特别篇 特别篇 特别篇"` one application collapses only the first duplicated
`特别篇` pair, so a second application changes the result again. -/
theorem c7_idempotence_counterexample :
    normalizeTitle (normalizeTitle "特别篇 特别篇 特别篇".toList) ≠
      normalizeTitle "特别篇 特别篇 特别篇".toList := by
  decide

/-- C7 (amended): title normalization is a pure total function of its input
(a Lean function, deterministic by construction), and it is idempotent on
every string whose normalized form does not still begin with the duplicated
`特别篇\s+特别篇` pattern of rule 6 — the sole source of non-idempotence. -/
theorem c7_idempotence_amended (s : List Char)
    (h : specialDupMatches (normalizeTitle s) = false) :
    normalizeTitle (normalizeTitle s) = normalizeTitle s := by
  have hclean : ∀ c ∈ normalizeTitle s, forbiddenChar c = false ∧ c ≠ '.' :=
    mkTitle_clean s []
  have hnt : NoTrailWS (normalizeTitle s) := mkTitle_noTrail s []
  have hhd : HeadNotDD (normalizeTitle s) := headNotDD_prefixChapter _
  have hsan : sanitize (normalizeTitle s) = normalizeTitle s := by
    unfold sanitize
    rw [replaceForbidden_id (fun c hc => (hclean c hc).1), rstrip_id hnt]
    exact dotToMiddleDot_id (fun c hc => (hclean c hc).2)
  show mkTitle (normalizeTitle s) [] = normalizeTitle s
  unfold mkTitle
  rw [show sanitize ([] : List Char) = [] from rfl, hsan,
    show joinTitles (normalizeTitle s) [] = normalizeTitle s from by simp [joinTitles],
    collapseNumDup_id_of_head hhd, collapseSpecialDup_id_of_no_match h,
    prefixChapter_id_of_head hhd]

/-- C7 witness: the normalization of `"1"` is `"第1话"`, whose re-normalization
is itself. -/
theorem c7_idempotence_amended_witness :
    specialDupMatches (normalizeTitle "1".toList) = false ∧
    normalizeTitle (normalizeTitle "1".toList) = normalizeTitle "1".toList :=
  ⟨by decide, c7_idempotence_amended "1".toList (by decide)⟩
